import Mathlib

/-!
A shallow embedding of the table widget of this repository
(`src/widgets/table/table.rs`) together with proofs about its two core
algorithms: the column layout planner (`Table::get_columns_widths`) and the
stateful viewport windowing (`Table::get_row_bounds`), plus the rendering
pipeline (`Widget::render` / `StatefulWidget::render` / `Table::render_rows`).

Machine integers (`u16`, `usize`) are modelled as `Nat`; the source's
`saturating_sub` is `Nat` truncated subtraction, and `saturating_add` is plain
addition (the saturation point `2^16` is never relevant to the claims below).
Types that the table code uses opaquely (styles, cell contents, blocks) are
type parameters `σ`, `κ`, `β`.  Drawing onto the terminal buffer is modelled
as the ordered list of draw operations the code issues.
-/

set_option maxHeartbeats 1000000

/-- Column sizing constraint (`layout::Constraint` as used by the table code). -/
inductive Constraint where
  | Length (n : Nat)
  | Percentage (p : Nat)
  | Ratio (num den : Nat)
  | Min (n : Nat)
  | Max (n : Nat)
deriving DecidableEq

/-- Policy for distributing extra space among segments (`layout::SegmentSize`). -/
inductive SegmentSize where
  | EvenDistribution
  | LastTakesRemainder
  | None
deriving DecidableEq

/-- When to reserve the selection-symbol gutter (`HighlightSpacing`).  Modelled
from the spec: the type's defining module is not among the provided sources;
the variants and their meaning are fixed by the spec and by the doc comment on
`Table::highlight_spacing`. -/
inductive HighlightSpacing where
  | Always
  | WhenSelected
  | Never
deriving DecidableEq

/-- Modelled from the spec: `HighlightSpacing::should_add` — `Always` always
reserves the gutter, `WhenSelected` only when a selection exists, `Never`
never does. -/
def HighlightSpacing.should_add (hs : HighlightSpacing) (has_selection : Bool) : Bool :=
  match hs with
  | .Always => true
  | .WhenSelected => has_selection
  | .Never => false

/-- A rectangle of the drawing surface (`layout::Rect`), coordinates in cells. -/
structure Rect where
  x : Nat
  y : Nat
  width : Nat
  height : Nat
deriving DecidableEq

/-- A `Rect` is empty when either dimension is zero (`Rect::is_empty`). -/
def Rect.isEmpty (r : Rect) : Bool := r.width == 0 || r.height == 0

/-- Modelled from the spec: `Row` (its defining module is not among the
provided sources).  Per the spec a row is an ordered sequence of cells with a
height, top and bottom margins and a style; `height_with_margin = height +
top_margin + bottom_margin`. -/
structure Row (σ κ : Type) where
  cells : List κ
  height : Nat
  top_margin : Nat
  bottom_margin : Nat
  style : σ
deriving DecidableEq

/-- Modelled from the spec: `Row::height_with_margin`. -/
def Row.height_with_margin (r : Row σ κ) : Nat :=
  r.height + r.top_margin + r.bottom_margin

/-- Modelled from the spec: `TableState` — the scroll offset of the first
visible row plus the optional selected row index, persisted across frames. -/
structure TableState where
  offset : Nat
  selected : Option Nat
deriving DecidableEq

/-- `TableState::default()`: offset `0`, no selection. -/
def TableState.default : TableState := { offset := 0, selected := none }

/-- The table widget configuration (struct `Table` in the source).  `σ` is the
opaque style type, `κ` the opaque cell content type, `β` the opaque block
(decoration wrapper) type. -/
structure Table (σ κ β : Type) where
  rows : List (Row σ κ)
  header : Option (Row σ κ)
  footer : Option (Row σ κ)
  widths : List Constraint
  column_spacing : Nat
  block : Option β
  style : σ
  highlight_style : σ
  highlight_symbol : Option String
  highlight_spacing : HighlightSpacing
  segment_size : SegmentSize
deriving DecidableEq

/-! ## Viewport windowing (`Table::get_row_bounds`, lines 723-759)

The loops only read each row's `height` and `height_with_margin()`, so the
core works over the list of `(height, height_with_margin)` pairs of the rows.
Rust's `rows[i]` indexing is modelled with `getD _ (0, 0)`; every theorem
below only evaluates it at indices the source actually reaches. -/

/-- Height (first component) of the row at index `i`. -/
def htAt (hws : List (Nat × Nat)) (i : Nat) : Nat := (hws.getD i (0, 0)).1

/-- Height-with-margin (second component) of the row at index `i`. -/
def hwmAt (hws : List (Nat × Nat)) (i : Nat) : Nat := (hws.getD i (0, 0)).2

/-- Sum of `height_with_margin` over the index interval `[s, s + n)`. -/
def wsum (hws : List (Nat × Nat)) (s : Nat) : Nat → Nat
  | 0 => 0
  | n + 1 => hwmAt hws s + wsum hws (s + 1) n

/-- First loop of `get_row_bounds` (lines 733-739): starting from the rows at
and after `offset` (passed as `rest = hws.drop offset` with `e = offset` and
`h = 0`), keep taking rows while `height + item.height <= max_height`, where
`height` accumulates `height_with_margin`.  Returns the exclusive end index
and the accumulated height. -/
def initLoop (maxH : Nat) : List (Nat × Nat) → Nat → Nat → Nat × Nat
  | [], e, h => (e, h)
  | r :: rest, e, h =>
    if maxH < h + r.1 then (e, h) else initLoop maxH rest (e + 1) (h + r.2)

/-- Inner loop of the forward-scroll phase (lines 745-748): while the
accumulated height exceeds `max_height`, drop the row at `start` (the head of
`rest = hws.drop s`) and advance `start`.  In the source the loop indexes
`rows[start]` unconditionally; exhausting `rest` is unreachable under the
window-sum invariant proved below. -/
def shrinkFrontAux (maxH : Nat) : List (Nat × Nat) → Nat → Nat → Nat × Nat
  | [], s, h => (s, h)
  | r :: rest, s, h =>
    if maxH < h then shrinkFrontAux maxH rest (s + 1) (h - r.2) else (s, h)

/-- One forward-scroll step per iteration of `while selected >= end` (lines
742-749): append the row at `end`, then shrink from the front.  The source
loop increments `end` exactly once per iteration, so it runs exactly
`selected + 1 - end` times; `growSteps` takes that iteration count as its
structural fuel. -/
def growSteps (hws : List (Nat × Nat)) (maxH : Nat) :
    Nat → Nat → Nat → Nat → Nat × Nat × Nat
  | 0, s, e, h => (s, e, h)
  | k + 1, s, e, h =>
    let h1 := h + hwmAt hws e
    let p := shrinkFrontAux maxH (hws.drop s) s h1
    growSteps hws maxH k p.1 (e + 1) p.2

/-- The `while selected >= end` loop (lines 742-749). -/
def growWindow (hws : List (Nat × Nat)) (maxH sel s e h : Nat) : Nat × Nat × Nat :=
  growSteps hws maxH (sel + 1 - e) s e h

/-- Inner loop of the backward-scroll phase (lines 753-756): while the
accumulated height exceeds `max_height`, drop the row just before `end`.
`end = 0` with excess height would underflow in the source; it is unreachable
under the window-sum invariant proved below. -/
def shrinkBack (hws : List (Nat × Nat)) (maxH : Nat) : Nat → Nat → Nat × Nat
  | 0, h => (0, h)
  | e + 1, h =>
    if maxH < h then shrinkBack hws maxH e (h - hwmAt hws e) else (e + 1, h)

/-- One backward-scroll step per iteration of `while selected < start` (lines
750-757): prepend the row before `start`, then shrink from the back.  The
source loop decrements `start` exactly once per iteration, so it runs exactly
`start - selected` times; `pullSteps` takes that count as structural fuel. -/
def pullSteps (hws : List (Nat × Nat)) (maxH : Nat) :
    Nat → Nat → Nat → Nat → Nat × Nat × Nat
  | 0, s, e, h => (s, e, h)
  | k + 1, s, e, h =>
    let s1 := s - 1
    let h1 := h + hwmAt hws s1
    let p := shrinkBack hws maxH e h1
    pullSteps hws maxH k s1 p.1 p.2

/-- The `while selected < start` loop (lines 750-757). -/
def pullBack (hws : List (Nat × Nat)) (maxH sel s e h : Nat) : Nat × Nat × Nat :=
  pullSteps hws maxH (s - sel) s e h

/-- The initial window of `get_row_bounds` (first loop only): end index and
accumulated height. -/
def initialWindowH (hws : List (Nat × Nat)) (offset maxH : Nat) : Nat × Nat :=
  initLoop maxH (hws.drop offset) offset 0

/-- The initial `(start, end)` window of `get_row_bounds` before the
selection-tracking adjustment: `start = offset`, `end` from the first loop. -/
def initialWindow (hws : List (Nat × Nat)) (offset maxH : Nat) : Nat × Nat :=
  (offset, (initialWindowH hws offset maxH).1)

/-- `Table::get_row_bounds` (lines 723-759) over `(height, height_with_margin)`
pairs: clamp the offset, compute the initial window, then the forward and
backward selection-tracking loops.  `selected.getD 0` is `unwrap_or(0)`; the
`hws.length - 1` clamps mirror `self.rows.len() - 1` and
`saturating_sub(1)`. -/
def getRowBounds (hws : List (Nat × Nat)) (selected : Option Nat)
    (offset maxH : Nat) : Nat × Nat :=
  let off := min offset (hws.length - 1)
  let p0 := initialWindowH hws off maxH
  let sel := min (selected.getD 0) (hws.length - 1)
  let p1 := growWindow hws maxH sel off p0.1 p0.2
  let p2 := pullBack hws maxH sel p1.1 p1.2.1 p1.2.2
  (p2.1, p2.2.1)

/-- The `(height, height_with_margin)` pairs of a table's rows. -/
def Table.hws (t : Table σ κ β) : List (Nat × Nat) :=
  t.rows.map fun r => (r.height, r.height_with_margin)

/-- `Table::get_row_bounds` at the table level. -/
def Table.get_row_bounds (t : Table σ κ β) (selected : Option Nat)
    (offset maxH : Nat) : Nat × Nat :=
  getRowBounds t.hws selected offset maxH

/-- Modelled from the spec: the windowing rule as the spec words it for the
initial window — accumulate each row's `height_with_margin` while it does not
exceed `max_height`; stop at the first index where adding the next row would
overflow.  This is the comparison definition for claim C2; the source's
`initLoop` instead tests `height + item.height > max_height`. -/
def specInitLoop (maxH : Nat) : List (Nat × Nat) → Nat → Nat → Nat
  | [], e, _ => e
  | r :: rest, e, h =>
    if maxH < h + r.2 then e else specInitLoop maxH rest (e + 1) (h + r.2)

/-- Modelled from the spec: end of the initial window under the spec's
accumulate-`height_with_margin` rule. -/
def specInitialEnd (hws : List (Nat × Nat)) (offset maxH : Nat) : Nat :=
  specInitLoop maxH (hws.drop offset) offset 0

/-! ## Constraint splitting (modelled `Layout::split`)

`Table::get_columns_widths` and `Table::layout` delegate to the layout engine
in `crate::layout`, which is not among the provided sources.  The splitter is
therefore modelled from the spec (§4.1 AreaSplitter) and, in the render
pipeline, also kept abstract: the pipeline definitions take the splitting
function as a parameter, and the spec-modelled `specSplit` below instantiates
it wherever a concrete value is needed. -/

/-- Modelled from the spec: round a ratio `num / den` to the nearest integer,
half to even (the spec's boundary rounding mode). -/
def rhe (num den : Nat) : Nat :=
  let q := num / den
  let r := num % den
  if 2 * r < den then q
  else if den < 2 * r then q + 1
  else if q % 2 == 0 then q else q + 1

/-- Modelled from the spec: the size a single constraint asks for over an
extent of length `L`.  `Fixed`/`AtLeast`/`AtMost` (source names `Length`,
`Min`, `Max`) ask for their stated bound and never grow into slack;
`Percent`/`Ratio` ask for the boundary-rounded fraction of `L`. -/
def Constraint.desired (L : Nat) : Constraint → Nat
  | .Length n => n
  | .Min n => n
  | .Max n => n
  | .Percentage p => rhe (L * p) 100
  | .Ratio num den => rhe (L * num) (max den 1)

/-- Modelled from the spec: first-fit allocation of segment lengths — each
segment takes `min desired remaining`, so the total never exceeds the extent
and insufficient space clips trailing segments to zero. -/
def exactLengths (L : Nat) : List Constraint → Nat → List Nat
  | [], _ => []
  | c :: cs, rem =>
    let len := min (c.desired L) rem
    len :: exactLengths L cs (rem - len)

/-- Modelled from the spec: slack distribution.  `None` (the spec's `Exact`)
leaves the trailing gap unused, `LastTakesRemainder` gives all slack to the
final segment, `EvenDistribution` divides it equally with the remainder
biased to the earliest segments. -/
def distribute (policy : SegmentSize) (L : Nat) (lens : List Nat) : List Nat :=
  let leftover := L - lens.sum
  match policy with
  | .None => lens
  | .LastTakesRemainder =>
    match lens.reverse with
    | [] => []
    | last :: revRest => ((last + leftover) :: revRest).reverse
  | .EvenDistribution =>
    let n := lens.length
    (lens.zip (List.range n)).map fun p =>
      p.1 + leftover / n + (if p.2 < leftover % n then 1 else 0)

/-- Lay consecutive segment lengths out as rectangles starting at `x`. -/
def segsToRects (y h : Nat) : Nat → List Nat → List Rect
  | _, [] => []
  | x, l :: ls => { x := x, y := y, width := l, height := h } :: segsToRects y h (x + l) ls

/-- Modelled from the spec: the 1-D area splitter (`Layout::split`), covering
the extent of `area` with one segment per constraint.  Percent/Ratio boundary
interaction and proportional deficit sharing between `Min`/`Max` constraints
is simplified to first-fit clipping; no claim below depends on those segment
values. -/
def specSplit (policy : SegmentSize) (area : Rect) (cs : List Constraint) : List Rect :=
  segsToRects area.y area.height area.x
    (distribute policy area.width (exactLengths area.width cs area.width))

/-! ## Column width planning (`Table::get_columns_widths`, lines 682-721) -/

/-- The derived column count when no widths are set (lines 688-695): the
maximum cell count across rows, header and footer, or `0` if there are none. -/
def Table.column_count (t : Table σ κ β) : Nat :=
  ((t.rows ++ t.header.toList ++ t.footer.toList).map fun r => r.cells.length).foldr max 0

/-- The content constraints used by the planner (lines 687-703): the user's
widths, or — when none are set — `column_count` equal `Length` columns of
`(max_width - spacing * (column_count - 1)) / column_count`. -/
def Table.effective_widths (t : Table σ κ β) (max_width : Nat) : List Constraint :=
  if t.widths.isEmpty then
    let col_count := t.column_count
    let total_space := max_width - t.column_spacing * (col_count - 1)
    List.replicate col_count (Constraint.Length (total_space / max col_count 1))
  else t.widths

/-- The full constraint sequence handed to the splitter (lines 704-709): the
selection gutter, then the content constraints interleaved with
`Length(column_spacing)` spacers. -/
def Table.column_constraints (t : Table σ κ β) (max_width selection_width : Nat) :
    List Constraint :=
  Constraint.Length selection_width ::
    List.intersperse (Constraint.Length t.column_spacing) (t.effective_widths max_width)

/-- Every other element of a list starting with its head — `step_by(2)`. -/
def everyOther : List α → List α
  | [] => []
  | [a] => [a]
  | a :: _ :: rest => a :: everyOther rest

/-- `Table::get_columns_widths` (lines 686-721): split `[0, max_width)` with
the gutter/content/spacer constraints, then `skip(1)` (the gutter segment)
and `step_by(2)` (the spacer segments) and keep each remaining segment's
`(x, width)`.  The external `Layout::split` is the parameter `split`. -/
def Table.get_columns_widths (t : Table σ κ β)
    (split : SegmentSize → Rect → List Constraint → List Rect)
    (max_width selection_width : Nat) : List (Nat × Nat) :=
  let layout := split t.segment_size { x := 0, y := 0, width := max_width, height := 1 }
    (t.column_constraints max_width selection_width)
  everyOther ((layout.map fun c => (c.x, c.width)).drop 1)

/-! ## Rendering pipeline -/

/-- One draw operation on the terminal buffer, in issue order: a style paint
over a rectangle (`Buffer::set_style`), the highlight symbol write
(`Buffer::set_stringn` with its width limit), a cell render (`Cell::render`),
or the block decoration render (`Block::render`). -/
inductive DrawOp (σ κ β : Type) where
  | setStyle (r : Rect) (s : σ)
  | setStringn (x y : Nat) (symbol : String) (maxWidth : Nat) (s : σ)
  | renderCell (c : κ) (r : Rect)
  | renderBlock (b : β) (r : Rect)
deriving DecidableEq

/-- `Table::selection_width` (lines 763-770): the highlight symbol's display
width when the highlight-spacing policy reserves the gutter for the current
selection state, else `0`.  `uw` is the external unicode display width. -/
def Table.selection_width (t : Table σ κ β) (uw : String → Nat)
    (st : TableState) : Nat :=
  if t.highlight_spacing.should_add st.selected.isSome then
    match t.highlight_symbol with
    | some s => uw s
    | none => 0
  else 0

/-- The table area after the optional block inset (`Table::render_block`,
lines 595-603).  `inner` is the external `Block::inner`. -/
def Table.table_area (t : Table σ κ β) (inner : β → Rect → Rect) (area : Rect) : Rect :=
  match t.block with
  | some b => inner b area
  | none => area

/-- Modelled from the spec: the vertical band split (`Table::layout`, lines
572-593, which delegates to the layout engine absent from the sources).  Per
the spec, header/footer heights and margins are fixed-size bands allocated
first-fit and the body consumes the remainder.  Returns
`(header_area, rows_area, footer_area)`. -/
def Table.layout (t : Table σ κ β) (area : Rect) : Rect × Rect × Rect :=
  let htm := (t.header.map fun h => h.top_margin).getD 0
  let hh := (t.header.map fun h => h.height).getD 0
  let hbm := (t.header.map fun h => h.bottom_margin).getD 0
  let ftm := (t.footer.map fun f => f.top_margin).getD 0
  let fh := (t.footer.map fun f => f.height).getD 0
  let fbm := (t.footer.map fun f => f.bottom_margin).getD 0
  let l1 := min htm area.height
  let r1 := area.height - l1
  let l2 := min hh r1
  let r2 := r1 - l2
  let l3 := min hbm r2
  let r3 := r2 - l3
  let body := r3 - (ftm + fh + fbm)
  let rest := r3 - body
  let l4 := min ftm rest
  let l5 := min fh (rest - l4)
  ({ x := area.x, y := area.y + l1, width := area.width, height := l2 },
   { x := area.x, y := area.y + l1 + l2 + l3, width := area.width, height := body },
   { x := area.x, y := area.y + l1 + l2 + l3 + body + l4, width := area.width, height := l5 })

/-- `Table::render_header` (lines 605-612): paint the header style, then zip
the column `(x, width)` pairs with the header cells. -/
def Table.render_header (t : Table σ κ β) (area : Rect) (cw : List (Nat × Nat)) :
    List (DrawOp σ κ β) :=
  match t.header with
  | none => []
  | some h =>
    DrawOp.setStyle area h.style ::
      (cw.zip h.cells).map fun pc =>
        DrawOp.renderCell pc.2
          { x := area.x + pc.1.1, y := area.y, width := pc.1.2, height := area.height }

/-- `Table::render_footer` (lines 614-621), identical in shape to the header. -/
def Table.render_footer (t : Table σ κ β) (area : Rect) (cw : List (Nat × Nat)) :
    List (DrawOp σ κ β) :=
  match t.footer with
  | none => []
  | some f =>
    DrawOp.setStyle area f.style ::
      (cw.zip f.cells).map fun pc =>
        DrawOp.renderCell pc.2
          { x := area.x + pc.1.1, y := area.y, width := pc.1.2, height := area.height }

/-- The area of one visible row (lines 648-653): below the running cursor `y`,
shifted by the top margin, `height_with_margin - top_margin` tall. -/
def rowAreaOf (area : Rect) (row : Row σ κ) (y : Nat) : Rect :=
  { x := area.x, y := area.y + y + row.top_margin, width := area.width,
    height := row.height_with_margin - row.top_margin }

/-- The cell render operations of one row (lines 669-674): zip the column
`(x, width)` pairs with the row's cells — extra cells are dropped and missing
cells leave their columns untouched — and clip each to the row height. -/
def cellOpsOf (area : Rect) (row : Row σ κ) (y : Nat) (cw : List (Nat × Nat)) :
    List (DrawOp σ κ β) :=
  (cw.zip row.cells).map fun pc =>
    DrawOp.renderCell pc.2
      { x := (rowAreaOf area row y).x + pc.1.1, y := (rowAreaOf area row y).y,
        width := pc.1.2, height := (rowAreaOf area row y).height }

/-- The draw operations for one visible row (lines 648-677): the row style
paint, the highlight symbol on the row's first line when the gutter is
reserved and this row is selected, each cell clipped to the row height at its
column position, and — for the selected row — the highlight style repaint
over the whole row area, issued last. -/
def rowOps (hlStyle : σ) (stSel : Option Nat) (area : Rect) (sw : Nat)
    (sym : String) (cw : List (Nat × Nat)) (i : Nat) (row : Row σ κ) (y : Nat) :
    List (DrawOp σ κ β) :=
  let ra := rowAreaOf area row y
  DrawOp.setStyle ra row.style ::
    ((if 0 < sw ∧ stSel = some i then
        [DrawOp.setStringn ra.x ra.y sym area.width row.style]
      else []) ++
     cellOpsOf area row y cw ++
     (if stSel = some i then [DrawOp.setStyle ra hlStyle] else []))

/-- The loop over the visible rows (lines 640-679), advancing the vertical
cursor by each row's `height_with_margin`. -/
def rowsOps (hlStyle : σ) (stSel : Option Nat) (area : Rect) (sw : Nat)
    (sym : String) (cw : List (Nat × Nat)) :
    List (Nat × Row σ κ) → Nat → List (DrawOp σ κ β)
  | [], _ => []
  | (i, row) :: rest, y =>
    rowOps hlStyle stSel area sw sym cw i row y ++
      rowsOps hlStyle stSel area sw sym cw rest (y + row.height_with_margin)

/-- `Table::render_rows` (lines 623-680): nothing to do for an empty row list;
otherwise compute the window, persist its start into the state's offset, and
render the rows `enumerate().skip(start).take(end - start)`. -/
def Table.render_rows (t : Table σ κ β) (area : Rect) (st : TableState)
    (selection_width : Nat) (highlight_symbol : String) (cw : List (Nat × Nat)) :
    List (DrawOp σ κ β) × TableState :=
  if t.rows.isEmpty then ([], st)
  else
    let b := t.get_row_bounds st.selected st.offset area.height
    let st1 : TableState := { st with offset := b.1 }
    (rowsOps t.highlight_style st.selected area selection_width highlight_symbol cw
      ((t.rows.enum.drop b.1).take (b.2 - b.1)) 0, st1)

/-- `StatefulWidget::render` for `Table` (lines 538-567): paint the base
style, inset through the block, return early on an empty table area, then
compute the gutter width, the column layout, the vertical bands, and render
header, rows and footer.  Returns the issued draw operations and the updated
state. -/
def Table.statefulRender (t : Table σ κ β) (inner : β → Rect → Rect)
    (split : SegmentSize → Rect → List Constraint → List Rect)
    (uw : String → Nat) (area : Rect) (st : TableState) :
    List (DrawOp σ κ β) × TableState :=
  let baseOps : List (DrawOp σ κ β) := [DrawOp.setStyle area t.style]
  let ta := t.table_area inner area
  let blockOps : List (DrawOp σ κ β) :=
    match t.block with
    | some b => [DrawOp.renderBlock b area]
    | none => []
  if ta.isEmpty then (baseOps ++ blockOps, st)
  else
    let sw := t.selection_width uw st
    let cw := t.get_columns_widths split ta.width sw
    let sym := (t.highlight_symbol).getD ""
    let bands := t.layout ta
    let headerOps := t.render_header bands.1 cw
    let rp := t.render_rows bands.2.1 st sw sym cw
    let footerOps := t.render_footer bands.2.2 cw
    (baseOps ++ blockOps ++ headerOps ++ rp.1 ++ footerOps, rp.2)

/-- `Widget::render` for `Table` (lines 531-536): delegate to the stateful
render with a freshly defaulted `TableState` and discard the state. -/
def Table.widgetRender (t : Table σ κ β) (inner : β → Rect → Rect)
    (split : SegmentSize → Rect → List Constraint → List Rect)
    (uw : String → Nat) (area : Rect) : List (DrawOp σ κ β) :=
  (t.statefulRender inner split uw area TableState.default).1

/-! ## Construction (`Table::new`, `Table::widths`, lines 232-248 and 346-355) -/

/-- `ensure_percentages_less_than_100` (lines 773-782), as a check: `true`
exactly when the source's assertion would pass. -/
def ensure_percentages_less_than_100 (widths : List Constraint) : Bool :=
  widths.all fun w =>
    match w with
    | .Percentage p => decide (p ≤ 100)
    | _ => true

/-- `Table::new` (lines 232-248).  The source's panic on an invalid
percentage is modelled as `none`; `s` is the opaque `Style::default()`
value for the base and highlight styles. -/
def Table.new (s : σ) (rows : List (Row σ κ)) (widths : List Constraint) :
    Option (Table σ κ β) :=
  if ensure_percentages_less_than_100 widths then
    some { rows := rows, header := none, footer := none, widths := widths,
           column_spacing := 1, block := none, style := s, highlight_style := s,
           highlight_symbol := none, highlight_spacing := .WhenSelected,
           segment_size := .None }
  else none

/-- The fluent setter `Table::widths` (lines 346-355), with the same
assertion modelled as `none`. -/
def Table.setWidths (t : Table σ κ β) (widths : List Constraint) :
    Option (Table σ κ β) :=
  if ensure_percentages_less_than_100 widths then
    some { t with widths := widths }
  else none

/-! ## Concrete tables used by counterexamples and witnesses -/

/-- A row with no cells, unit style, height `1` and no margins. -/
def unitRow : Row Unit Unit :=
  { cells := [], height := 1, top_margin := 0, bottom_margin := 0, style := () }

/-- A table with a single row of height `5` (no margins). -/
def tallRowTable : Table Unit Unit Unit :=
  { rows := [{ unitRow with height := 5 }], header := none, footer := none,
    widths := [], column_spacing := 1, block := none, style := (),
    highlight_style := (), highlight_symbol := none,
    highlight_spacing := .WhenSelected, segment_size := .None }

/-- A table with three rows of height `1` (no margins). -/
def threeRowTable : Table Unit Unit Unit :=
  { rows := [unitRow, unitRow, unitRow], header := none, footer := none,
    widths := [], column_spacing := 1, block := none, style := (),
    highlight_style := (), highlight_symbol := none,
    highlight_spacing := .WhenSelected, segment_size := .None }

/-- The identity block inset, used to instantiate the external `Block::inner`
in concrete computations. -/
def innerU : Unit → Rect → Rect := fun _ r => r

/-- A zero display-width function, instantiating the external unicode width. -/
def uwZero : String → Nat := fun _ => 0

/-- A table with rows of `2` and `3` cells, no explicit widths and zero
column spacing, as built by `Table::default().rows(...).column_spacing(0)`
(`SegmentSize::default()` is `LastTakesRemainder` in this crate version). -/
def derivedWidthsTable : Table Unit Unit Unit :=
  { rows := [{ unitRow with cells := [(), ()] },
             { unitRow with cells := [(), (), ()] }],
    header := none, footer := none, widths := [], column_spacing := 0,
    block := none, style := (), highlight_style := (), highlight_symbol := none,
    highlight_spacing := .WhenSelected, segment_size := .LastTakesRemainder }

/-- A splitter stub returning one zero rectangle per constraint, used to
discharge the segment-count hypothesis of the C7 theorem concretely. -/
def constSplit : SegmentSize → Rect → List Constraint → List Rect :=
  fun _ _ cs => cs.map fun _ => { x := 0, y := 0, width := 0, height := 0 }

/-- Row used by the C8 witness. -/
def wRow : Row Nat Unit :=
  { cells := [()], height := 1, top_margin := 0, bottom_margin := 0, style := 0 }

/-! ## Window-sum invariants for the row-bounds loops -/

lemma hwmAt_of_length_le (hws : List (Nat × Nat)) {i : Nat} (h : hws.length ≤ i) :
    hwmAt hws i = 0 := by
  unfold hwmAt
  rw [List.getD_eq_default _ _ h]

lemma wsum_succ (hws : List (Nat × Nat)) :
    ∀ n s, wsum hws s (n + 1) = wsum hws s n + hwmAt hws (s + n) := by
  intro n
  induction n with
  | zero => intro s; simp [wsum]
  | succ n ih =>
    intro s
    have h1 : wsum hws s (n + 1 + 1) = hwmAt hws s + wsum hws (s + 1) (n + 1) := rfl
    have h2 : wsum hws s (n + 1) = hwmAt hws s + wsum hws (s + 1) n := rfl
    have h3 := ih (s + 1)
    have h4 : s + 1 + n = s + (n + 1) := by omega
    rw [h4] at h3
    omega

lemma wsum_of_length_le (hws : List (Nat × Nat)) :
    ∀ n s, hws.length ≤ s → wsum hws s n = 0 := by
  intro n
  induction n with
  | zero => intro s _; rfl
  | succ n ih =>
    intro s hs
    have h1 : wsum hws s (n + 1) = hwmAt hws s + wsum hws (s + 1) n := rfl
    rw [h1, hwmAt_of_length_le hws hs, ih (s + 1) (by omega)]

lemma drop_cons (hws : List (Nat × Nat)) {e : Nat} {r : Nat × Nat}
    {rest : List (Nat × Nat)} (h : hws.drop e = r :: rest) :
    e < hws.length ∧ htAt hws e = r.1 ∧ hwmAt hws e = r.2 ∧ hws.drop (e + 1) = rest := by
  have he : e < hws.length := by
    by_contra hc
    push_neg at hc
    rw [List.drop_eq_nil_of_le hc] at h
    exact List.cons_ne_nil _ _ h.symm
  have h2 := List.drop_eq_getElem_cons he
  rw [h] at h2
  injection h2 with h3 h4
  refine ⟨he, ?_, ?_, h4.symm⟩
  · unfold htAt
    rw [List.getD_eq_getElem _ _ he, h3]
  · unfold hwmAt
    rw [List.getD_eq_getElem _ _ he, h3]

lemma initLoop_spec (hws : List (Nat × Nat)) (maxH : Nat) :
    ∀ rest e h, rest = hws.drop e →
      e ≤ (initLoop maxH rest e h).1 ∧
      (e ≤ hws.length → (initLoop maxH rest e h).1 ≤ hws.length) ∧
      (initLoop maxH rest e h).2 = h + wsum hws e ((initLoop maxH rest e h).1 - e) ∧
      (∀ i, e ≤ i → i < (initLoop maxH rest e h).1 →
        h + wsum hws e (i - e) + htAt hws i ≤ maxH) ∧
      ((initLoop maxH rest e h).1 < hws.length →
        maxH < h + wsum hws e ((initLoop maxH rest e h).1 - e) +
          htAt hws (initLoop maxH rest e h).1) := by
  intro rest
  induction rest with
  | nil =>
    intro e h hrest
    have hlen : hws.length ≤ e := by
      have := congrArg List.length hrest
      simp [List.length_drop] at this
      omega
    simp only [initLoop]
    refine ⟨Nat.le_refl e, fun h1 => ?_, by simp [wsum], fun i h1 h2 => ?_, fun h1 => ?_⟩
    · omega
    · omega
    · omega
  | cons r rest' ih =>
    intro e h hrest
    obtain ⟨he, hht, hhwm, hdrop⟩ := drop_cons hws hrest.symm
    simp only [initLoop]
    by_cases hc : maxH < h + r.1
    · simp only [if_pos hc]
      refine ⟨Nat.le_refl e, fun h1 => ?_, by simp [wsum], fun i h1 h2 => ?_, fun h1 => ?_⟩
      · omega
      · omega
      · simp only [Nat.sub_self, wsum]
        omega
    · simp only [if_neg hc]
      obtain ⟨ih1, ih2, ih3, ih4, ih5⟩ := ih (e + 1) (h + r.2) hdrop.symm
      set p := initLoop maxH rest' (e + 1) (h + r.2) with hp
      have hsum : ∀ m, e + 1 ≤ m →
          h + wsum hws e (m - e) = h + r.2 + wsum hws (e + 1) (m - (e + 1)) := by
        intro m hm
        have hm1 : m - e = (m - (e + 1)) + 1 := by omega
        have h1 : wsum hws e ((m - (e + 1)) + 1) =
            hwmAt hws e + wsum hws (e + 1) (m - (e + 1)) := rfl
        rw [hm1, h1, hhwm]
        omega
      refine ⟨by omega, fun h1 => ih2 (by omega), ?_, fun i h1 h2 => ?_, fun h1 => ?_⟩
      · rw [hsum p.1 ih1]
        exact ih3
      · by_cases hie : i = e
        · subst hie
          simp only [Nat.sub_self, wsum]
          omega
        · have h3 := ih4 i (by omega) h2
          rw [hsum i (by omega)]
          omega
      · have h2 := ih5 h1
        rw [hsum p.1 ih1]
        omega

lemma shrinkFrontAux_spec (hws : List (Nat × Nat)) (maxH E : Nat) :
    ∀ rest s h, rest = hws.drop s → s ≤ E → h = wsum hws s (E - s) →
      s ≤ (shrinkFrontAux maxH rest s h).1 ∧
      (shrinkFrontAux maxH rest s h).1 ≤ E ∧
      (shrinkFrontAux maxH rest s h).2 =
        wsum hws (shrinkFrontAux maxH rest s h).1 (E - (shrinkFrontAux maxH rest s h).1) ∧
      (shrinkFrontAux maxH rest s h).2 ≤ maxH ∧
      ∀ j, s ≤ j → j < (shrinkFrontAux maxH rest s h).1 →
        maxH < wsum hws j (E - j) := by
  intro rest
  induction rest with
  | nil =>
    intro s h hrest hse hsum
    have hlen : hws.length ≤ s := by
      have := congrArg List.length hrest
      simp [List.length_drop] at this
      omega
    have h0 : h = 0 := by rw [hsum]; exact wsum_of_length_le hws _ _ hlen
    simp only [shrinkFrontAux]
    exact ⟨Nat.le_refl s, hse, hsum, by omega, fun j h1 h2 => by omega⟩
  | cons r rest' ih =>
    intro s h hrest hse hsum
    obtain ⟨hs, hht, hhwm, hdrop⟩ := drop_cons hws hrest.symm
    simp only [shrinkFrontAux]
    by_cases hc : maxH < h
    · simp only [if_pos hc]
      have hslt : s < E := by
        rcases Nat.lt_or_ge s E with h1 | h1
        · exact h1
        · exfalso
          have : E - s = 0 := by omega
          rw [this] at hsum
          simp [wsum] at hsum
          omega
      have hstep : h - r.2 = wsum hws (s + 1) (E - (s + 1)) := by
        have h1 : E - s = (E - (s + 1)) + 1 := by omega
        have h2 : wsum hws s ((E - (s + 1)) + 1) =
            hwmAt hws s + wsum hws (s + 1) (E - (s + 1)) := rfl
        rw [h1, h2, hhwm] at hsum
        omega
      obtain ⟨ih1, ih2, ih3, ih4, ih5⟩ := ih (s + 1) (h - r.2) hdrop.symm (by omega) hstep
      refine ⟨by omega, ih2, ih3, ih4, fun j h1 h2 => ?_⟩
      by_cases hj : j = s
      · subst hj
        rw [← hsum]
        exact hc
      · exact ih5 j (by omega) h2
    · simp only [if_neg hc]
      exact ⟨Nat.le_refl s, hse, hsum, by omega, fun j h1 h2 => by omega⟩

lemma growSteps_spec (hws : List (Nat × Nat)) (maxH : Nat) :
    ∀ k s e h, s ≤ e → h = wsum hws s (e - s) →
      (growSteps hws maxH k s e h).2.1 = e + k ∧
      s ≤ (growSteps hws maxH k s e h).1 ∧
      (growSteps hws maxH k s e h).1 ≤ e + k ∧
      (growSteps hws maxH k s e h).2.2 =
        wsum hws (growSteps hws maxH k s e h).1 (e + k - (growSteps hws maxH k s e h).1) ∧
      (0 < k → (growSteps hws maxH k s e h).2.2 ≤ maxH) := by
  intro k
  induction k with
  | zero =>
    intro s e h hse hsum
    simp only [growSteps]
    exact ⟨rfl, Nat.le_refl s, by omega, by simpa using hsum, fun h1 => by omega⟩
  | succ k ih =>
    intro s e h hse hsum
    simp only [growSteps]
    have hsum1 : h + hwmAt hws e = wsum hws s (e + 1 - s) := by
      have h1 : e + 1 - s = (e - s) + 1 := by omega
      rw [h1, wsum_succ]
      have h2 : s + (e - s) = e := by omega
      rw [h2, hsum]
    obtain ⟨sf1, sf2, sf3, sf4, sf5⟩ :=
      shrinkFrontAux_spec hws maxH (e + 1) (hws.drop s) s (h + hwmAt hws e) rfl
        (by omega) hsum1
    set p := shrinkFrontAux maxH (hws.drop s) s (h + hwmAt hws e) with hp
    obtain ⟨ih1, ih2, ih3, ih4, ih5⟩ := ih p.1 (e + 1) p.2 sf2 sf3
    refine ⟨by omega, by omega, by omega, by
      have h1 : e + 1 + k = e + (k + 1) := by omega
      rw [← h1]
      exact ih4, fun _ => ?_⟩
    rcases Nat.eq_zero_or_pos k with hk | hk
    · subst hk
      simp only [growSteps]
      exact sf4
    · exact ih5 hk

lemma growSteps_sel (hws : List (Nat × Nat)) (maxH : Nat)
    (Hw : ∀ i, i < hws.length → hwmAt hws i ≤ maxH) :
    ∀ k s e h, 0 < k → s ≤ e → h = wsum hws s (e - s) → e + k ≤ hws.length →
      (growSteps hws maxH k s e h).1 < e + k := by
  intro k
  induction k with
  | zero => intro s e h hk; omega
  | succ k ih =>
    intro s e h _ hse hsum hlen
    simp only [growSteps]
    have hsum1 : h + hwmAt hws e = wsum hws s (e + 1 - s) := by
      have h1 : e + 1 - s = (e - s) + 1 := by omega
      rw [h1, wsum_succ]
      have h2 : s + (e - s) = e := by omega
      rw [h2, hsum]
    obtain ⟨sf1, sf2, sf3, sf4, sf5⟩ :=
      shrinkFrontAux_spec hws maxH (e + 1) (hws.drop s) s (h + hwmAt hws e) rfl
        (by omega) hsum1
    set p := shrinkFrontAux maxH (hws.drop s) s (h + hwmAt hws e) with hp
    have hp1 : p.1 < e + 1 := by
      rcases Nat.lt_or_ge p.1 (e + 1) with h1 | h1
      · exact h1
      · exfalso
        have h2 := sf5 e hse (by omega)
        have h3 : wsum hws e (e + 1 - e) = hwmAt hws e := by
          have h4 : e + 1 - e = 1 := by omega
          rw [h4]
          simp [wsum]
        rw [h3] at h2
        exact absurd (Hw e (by omega)) (by omega)
    rcases Nat.eq_zero_or_pos k with hk | hk
    · subst hk
      simp only [growSteps]
      omega
    · have := ih p.1 (e + 1) p.2 hk sf2 sf3 (by omega)
      omega

lemma shrinkBack_spec (hws : List (Nat × Nat)) (maxH s : Nat) :
    ∀ e h, s ≤ e → h = wsum hws s (e - s) →
      s ≤ (shrinkBack hws maxH e h).1 ∧
      (shrinkBack hws maxH e h).1 ≤ e ∧
      (shrinkBack hws maxH e h).2 =
        wsum hws s ((shrinkBack hws maxH e h).1 - s) ∧
      (shrinkBack hws maxH e h).2 ≤ maxH ∧
      ∀ j, (shrinkBack hws maxH e h).1 < j → j ≤ e → maxH < wsum hws s (j - s) := by
  intro e
  induction e with
  | zero =>
    intro h hse hsum
    have h0 : h = 0 := by
      rw [hsum]
      have : 0 - s = 0 := by omega
      rw [this]
      rfl
    simp only [shrinkBack]
    exact ⟨by omega, Nat.le_refl 0, by simpa [wsum] using hsum, by omega,
      fun j h1 h2 => by omega⟩
  | succ e ih =>
    intro h hse hsum
    simp only [shrinkBack]
    by_cases hc : maxH < h
    · simp only [if_pos hc]
      have hse' : s ≤ e := by
        rcases Nat.lt_or_ge e s with h1 | h1
        · exfalso
          have h2 : e + 1 - s = 0 ∨ e + 1 - s = 1 := by omega
          rcases h2 with h2 | h2 <;> rw [h2] at hsum
          · simp [wsum] at hsum
            omega
          · have h3 : s = e + 1 ∨ s = e := by omega
            rcases h3 with h3 | h3 <;> omega
        · exact h1
      have hstep : h - hwmAt hws e = wsum hws s (e - s) := by
        have h1 : e + 1 - s = (e - s) + 1 := by omega
        rw [h1, wsum_succ] at hsum
        have h2 : s + (e - s) = e := by omega
        rw [h2] at hsum
        omega
      obtain ⟨ih1, ih2, ih3, ih4, ih5⟩ := ih (h - hwmAt hws e) hse' hstep
      refine ⟨ih1, by omega, ih3, ih4, fun j h1 h2 => ?_⟩
      by_cases hj : j = e + 1
      · subst hj
        rw [← hsum]
        exact hc
      · exact ih5 j h1 (by omega)
    · simp only [if_neg hc]
      exact ⟨hse, Nat.le_refl _, hsum, by omega, fun j h1 h2 => by omega⟩

lemma pullSteps_spec (hws : List (Nat × Nat)) (maxH : Nat) :
    ∀ k s e h, k ≤ s → s ≤ e → h = wsum hws s (e - s) →
      (pullSteps hws maxH k s e h).1 = s - k ∧
      (pullSteps hws maxH k s e h).1 ≤ (pullSteps hws maxH k s e h).2.1 ∧
      (pullSteps hws maxH k s e h).2.1 ≤ e ∧
      (pullSteps hws maxH k s e h).2.2 =
        wsum hws (s - k) ((pullSteps hws maxH k s e h).2.1 - (s - k)) ∧
      (0 < k → (pullSteps hws maxH k s e h).2.2 ≤ maxH) := by
  intro k
  induction k with
  | zero =>
    intro s e h _ hse hsum
    simp only [pullSteps]
    exact ⟨rfl, by omega, Nat.le_refl e, by simpa using hsum, fun h1 => by omega⟩
  | succ k ih =>
    intro s e h hks hse hsum
    simp only [pullSteps]
    have hs1 : 1 ≤ s := by omega
    have hsum1 : h + hwmAt hws (s - 1) = wsum hws (s - 1) (e - (s - 1)) := by
      have h1 : e - (s - 1) = (e - s) + 1 := by omega
      have h2 : wsum hws (s - 1) ((e - s) + 1) =
          hwmAt hws (s - 1) + wsum hws (s - 1 + 1) (e - s) := rfl
      have h3 : s - 1 + 1 = s := by omega
      rw [h1, h2, h3, ← hsum]
      omega
    obtain ⟨sb1, sb2, sb3, sb4, sb5⟩ :=
      shrinkBack_spec hws maxH (s - 1) e (h + hwmAt hws (s - 1)) (by omega) hsum1
    set p := shrinkBack hws maxH e (h + hwmAt hws (s - 1)) with hp
    obtain ⟨ih1, ih2, ih3, ih4, ih5⟩ := ih (s - 1) p.1 p.2 (by omega) sb1 sb3
    have hsk : s - 1 - k = s - (k + 1) := by omega
    refine ⟨by omega, by omega, by omega, by rw [← hsk]; exact ih4, fun _ => ?_⟩
    rcases Nat.eq_zero_or_pos k with hk | hk
    · subst hk
      simp only [pullSteps]
      exact sb4
    · exact ih5 hk

lemma pullSteps_sel (hws : List (Nat × Nat)) (maxH : Nat)
    (Hw : ∀ i, i < hws.length → hwmAt hws i ≤ maxH) :
    ∀ k s e h, 0 < k → k ≤ s → s ≤ e → e ≤ hws.length → h = wsum hws s (e - s) →
      s - k < (pullSteps hws maxH k s e h).2.1 := by
  intro k
  induction k with
  | zero => intro s e h hk; omega
  | succ k ih =>
    intro s e h _ hks hse hlen hsum
    simp only [pullSteps]
    have hs1 : 1 ≤ s := by omega
    have hsum1 : h + hwmAt hws (s - 1) = wsum hws (s - 1) (e - (s - 1)) := by
      have h1 : e - (s - 1) = (e - s) + 1 := by omega
      have h2 : wsum hws (s - 1) ((e - s) + 1) =
          hwmAt hws (s - 1) + wsum hws (s - 1 + 1) (e - s) := rfl
      have h3 : s - 1 + 1 = s := by omega
      rw [h1, h2, h3, ← hsum]
      omega
    obtain ⟨sb1, sb2, sb3, sb4, sb5⟩ :=
      shrinkBack_spec hws maxH (s - 1) e (h + hwmAt hws (s - 1)) (by omega) hsum1
    set p := shrinkBack hws maxH e (h + hwmAt hws (s - 1)) with hp
    have hpe : s - 1 < p.1 := by
      rcases Nat.lt_or_ge (s - 1) p.1 with h1 | h1
      · exact h1
      · exfalso
        have h2 := sb5 (s - 1 + 1) (by omega) (by omega)
        have h3 : wsum hws (s - 1) (s - 1 + 1 - (s - 1)) = hwmAt hws (s - 1) := by
          have h4 : s - 1 + 1 - (s - 1) = 1 := by omega
          rw [h4]
          simp [wsum]
        rw [h3] at h2
        exact absurd (Hw (s - 1) (by omega)) (by omega)
    rcases Nat.eq_zero_or_pos k with hk | hk
    · subst hk
      simp only [pullSteps]
      omega
    · have := ih (s - 1) p.1 p.2 hk (by omega) (by omega) (by omega) sb3
      omega

/-! ## Bridging lemmas between tables and the windowing core -/

lemma Table.hws_length (t : Table σ κ β) : t.hws.length = t.rows.length :=
  List.length_map _ _

lemma Table.htAt_hws (t : Table σ κ β) {i : Nat} (h : i < t.rows.length) :
    htAt t.hws i = t.rows[i].height := by
  unfold htAt Table.hws
  rw [List.getD_eq_getElem _ _ (by simpa using h), List.getElem_map]

lemma Table.hwmAt_hws (t : Table σ κ β) {i : Nat} (h : i < t.rows.length) :
    hwmAt t.hws i = t.rows[i].height_with_margin := by
  unfold hwmAt Table.hws
  rw [List.getD_eq_getElem _ _ (by simpa using h), List.getElem_map]

/-! ## Lemmas about the column planner shape -/

lemma everyOther_getElem? : ∀ (l : List α) (i : Nat), (everyOther l)[i]? = l[2 * i]?
  | [], i => by simp [everyOther]
  | [a], 0 => by simp [everyOther]
  | [a], i + 1 => by
    have h : 2 * (i + 1) = 2 * i + 1 + 1 := by omega
    simp [everyOther, h]
  | a :: b :: rest, 0 => by simp [everyOther]
  | a :: b :: rest, i + 1 => by
    have h : 2 * (i + 1) = 2 * i + 1 + 1 := by omega
    simp only [everyOther, h, List.getElem?_cons_succ]
    exact everyOther_getElem? rest i

lemma everyOther_length : ∀ l : List α, (everyOther l).length = (l.length + 1) / 2
  | [] => by simp [everyOther]
  | [a] => by simp [everyOther]
  | a :: b :: rest => by
    have h := everyOther_length rest
    simp only [everyOther, List.length_cons, h]
    omega

lemma length_intersperse (sep : α) : ∀ l : List α,
    (List.intersperse sep l).length = 2 * l.length - 1
  | [] => by simp [List.intersperse]
  | [a] => by simp [List.intersperse]
  | a :: b :: rest => by
    have h := length_intersperse sep (b :: rest)
    simp only [List.intersperse, List.length_cons] at h ⊢
    omega

/-! ## The percentage check -/

lemma ensure_iff (ws : List Constraint) :
    ensure_percentages_less_than_100 ws = true ↔
      ∀ p, Constraint.Percentage p ∈ ws → p ≤ 100 := by
  unfold ensure_percentages_less_than_100
  rw [List.all_eq_true]
  constructor
  · intro h p hp
    simpa using h _ hp
  · intro h w hw
    cases w with
    | Percentage p => simpa using h p hw
    | Length n => rfl
    | Ratio num den => rfl
    | Min n => rfl
    | Max n => rfl

/-! ## Full window specification under the amended hypotheses -/

lemma getRowBounds_core_spec (hws : List (Nat × Nat)) (sel off maxH : Nat)
    (hoff : off < hws.length) (hsel : sel < hws.length)
    (Hm : ∀ i, i < hws.length → hwmAt hws i = htAt hws i)
    (Hh : ∀ i, i < hws.length → htAt hws i ≤ maxH) :
    (getRowBounds hws (some sel) off maxH).1 ≤ sel ∧
    sel < (getRowBounds hws (some sel) off maxH).2 ∧
    wsum hws (getRowBounds hws (some sel) off maxH).1
      ((getRowBounds hws (some sel) off maxH).2 -
        (getRowBounds hws (some sel) off maxH).1) ≤ maxH := by
  have Hw : ∀ i, i < hws.length → hwmAt hws i ≤ maxH := by
    intro i hi
    rw [Hm i hi]
    exact Hh i hi
  have hoffc : min off (hws.length - 1) = off := by omega
  have hselc : min sel (hws.length - 1) = sel := by omega
  obtain ⟨i1, i2, i3, i4, i5⟩ := initLoop_spec hws maxH (hws.drop off) off 0 rfl
  rcases hI : initLoop maxH (hws.drop off) off 0 with ⟨e0, h0v⟩
  simp only [hI] at i1 i2 i3 i4 i5
  have he0len : e0 ≤ hws.length := i2 (by omega)
  have hsum0 : h0v = wsum hws off (e0 - off) := by omega
  have hinit_le : h0v ≤ maxH := by
    rcases Nat.eq_or_lt_of_le i1 with heq | hlt
    · have h1 : e0 - off = 0 := by omega
      rw [hsum0, h1]
      simp [wsum]
    · have hlast := i4 (e0 - 1) (by omega) (by omega)
      have hstep : wsum hws off (e0 - off) =
          wsum hws off (e0 - 1 - off) + hwmAt hws (e0 - 1) := by
        have h1 : e0 - off = (e0 - 1 - off) + 1 := by omega
        rw [h1, wsum_succ]
        have h2 : off + (e0 - 1 - off) = e0 - 1 := by omega
        rw [h2]
      have hm := Hm (e0 - 1) (by omega)
      rw [hsum0, hstep, hm]
      omega
  obtain ⟨g1, g2, g3, g4, g5⟩ :=
    growSteps_spec hws maxH (sel + 1 - e0) off e0 h0v i1 hsum0
  rcases hG : growSteps hws maxH (sel + 1 - e0) off e0 h0v with ⟨s1, e1, h1v⟩
  simp only [hG] at g1 g2 g3 g4 g5
  have hA : sel < e1 := by omega
  have hD : e1 ≤ hws.length := by
    rcases Nat.eq_zero_or_pos (sel + 1 - e0) with hk0 | hk0 <;> omega
  have hC : h1v ≤ maxH := by
    rcases Nat.eq_zero_or_pos (sel + 1 - e0) with hk0 | hk0
    · have hid : growSteps hws maxH (sel + 1 - e0) off e0 h0v = (off, e0, h0v) := by
        rw [hk0]
        rfl
      rw [hG] at hid
      have : h1v = h0v := by
        have := congrArg (fun p => p.2.2) hid
        simpa using this
      omega
    · exact g5 hk0
  have hBs : 0 < sel + 1 - e0 → s1 ≤ sel := by
    intro hk0
    have hgs := growSteps_sel hws maxH Hw (sel + 1 - e0) off e0 h0v hk0 i1 hsum0
      (by omega)
    rw [hG] at hgs
    simp only at hgs
    omega
  have hB0 : sel + 1 - e0 = 0 → s1 = off := by
    intro hk0
    have hid : growSteps hws maxH (sel + 1 - e0) off e0 h0v = (off, e0, h0v) := by
      rw [hk0]
      rfl
    rw [hG] at hid
    have := congrArg (fun p => p.1) hid
    simpa using this
  have g4' : h1v = wsum hws s1 (e1 - s1) := by
    have h1 : e0 + (sel + 1 - e0) = e1 := by omega
    rw [← h1]
    exact g4
  obtain ⟨p1c, p2c, p3c, p4c, p5c⟩ :=
    pullSteps_spec hws maxH (s1 - sel) s1 e1 h1v (by omega) (by omega) g4'
  rcases hP : pullSteps hws maxH (s1 - sel) s1 e1 h1v with ⟨s2, e2, h2v⟩
  simp only [hP] at p1c p2c p3c p4c p5c
  have hmain : getRowBounds hws (some sel) off maxH = (s2, e2) := by
    unfold getRowBounds initialWindowH growWindow pullBack
    simp only [Option.getD_some]
    rw [hoffc, hselc, hI]
    simp only
    rw [hG]
    simp only
    rw [hP]
  rw [hmain]
  simp only
  have hfin2 : sel < e2 := by
    rcases Nat.eq_zero_or_pos (s1 - sel) with hk1 | hk1
    · have hid : pullSteps hws maxH (s1 - sel) s1 e1 h1v = (s1, e1, h1v) := by
        rw [hk1]
        rfl
      rw [hP] at hid
      have : e2 = e1 := by
        have := congrArg (fun p => p.2.1) hid
        simpa using this
      omega
    · have hps := pullSteps_sel hws maxH Hw (s1 - sel) s1 e1 h1v hk1 (by omega)
        (by omega) hD g4'
      rw [hP] at hps
      simp only at hps
      omega
  have hfin3 : wsum hws s2 (e2 - s2) ≤ maxH := by
    have hw2 : h2v = wsum hws s2 (e2 - s2) := by
      rw [p4c]
      have : s1 - (s1 - sel) = s2 := by omega
      rw [this]
    rcases Nat.eq_zero_or_pos (s1 - sel) with hk1 | hk1
    · have hid : pullSteps hws maxH (s1 - sel) s1 e1 h1v = (s1, e1, h1v) := by
        rw [hk1]
        rfl
      rw [hP] at hid
      have : h2v = h1v := by
        have := congrArg (fun p => p.2.2) hid
        simpa using this
      omega
    · have := p5c hk1
      omega
  refine ⟨?_, hfin2, hfin3⟩
  omega


/-- C1 (amended): for a non-empty row list whose rows all have zero top and
bottom margins and height at most `max_height`, every pre-clamped offset and
every selected index within `[0, row_count)`, the window `(start, end)`
computed by `get_row_bounds` satisfies `start ≤ selected < end`, and the sum
of `height_with_margin` over `[start, end)` is at most `max_height`.  Without
the margin and row-height conditions the original claim is false — see
`get_row_bounds_window_counterexample`. -/
theorem get_row_bounds_keeps_selection_visible {σ κ β : Type} (t : Table σ κ β)
    (sel off maxH : Nat) (hoff : off < t.rows.length) (hsel : sel < t.rows.length)
    (hmargin : ∀ r ∈ t.rows, r.top_margin = 0 ∧ r.bottom_margin = 0)
    (hheight : ∀ r ∈ t.rows, r.height ≤ maxH) :
    (t.get_row_bounds (some sel) off maxH).1 ≤ sel ∧
    sel < (t.get_row_bounds (some sel) off maxH).2 ∧
    wsum t.hws (t.get_row_bounds (some sel) off maxH).1
      ((t.get_row_bounds (some sel) off maxH).2 -
        (t.get_row_bounds (some sel) off maxH).1) ≤ maxH := by
  have hlen := t.hws_length
  have Hm : ∀ i, i < t.hws.length → hwmAt t.hws i = htAt t.hws i := by
    intro i hi
    rw [hlen] at hi
    rw [t.hwmAt_hws hi, t.htAt_hws hi]
    obtain ⟨h1, h2⟩ := hmargin _ (t.rows.getElem_mem hi)
    unfold Row.height_with_margin
    omega
  have Hh : ∀ i, i < t.hws.length → htAt t.hws i ≤ maxH := by
    intro i hi
    rw [hlen] at hi
    rw [t.htAt_hws hi]
    exact hheight _ (t.rows.getElem_mem hi)
  exact getRowBounds_core_spec t.hws sel off maxH (by omega) (by omega) Hm Hh

/-- C1 counterexample: with a single row of height `5`, `max_height = 3`,
offset `0` and row `0` selected, `get_row_bounds` returns the empty window
`(0, 0)`, so `selected < end` fails and the claim as stated is false. -/
theorem get_row_bounds_window_counterexample :
    tallRowTable.get_row_bounds (some 0) 0 3 = (0, 0) ∧
    ¬ ((tallRowTable.get_row_bounds (some 0) 0 3).1 ≤ 0 ∧
        0 < (tallRowTable.get_row_bounds (some 0) 0 3).2 ∧
        wsum tallRowTable.hws (tallRowTable.get_row_bounds (some 0) 0 3).1
          ((tallRowTable.get_row_bounds (some 0) 0 3).2 -
            (tallRowTable.get_row_bounds (some 0) 0 3).1) ≤ 3) := by
  decide

/-- Witness for the amended C1 theorem: three unit-height rows, `max_height =
2`, offset `0`, selection `2` give the window `(1, 3)`. -/
theorem get_row_bounds_keeps_selection_visible_witness :
    (0 < threeRowTable.rows.length ∧ 2 < threeRowTable.rows.length) ∧
    ((threeRowTable.get_row_bounds (some 2) 0 2).1 ≤ 2 ∧
      2 < (threeRowTable.get_row_bounds (some 2) 0 2).2 ∧
      wsum threeRowTable.hws (threeRowTable.get_row_bounds (some 2) 0 2).1
        ((threeRowTable.get_row_bounds (some 2) 0 2).2 -
          (threeRowTable.get_row_bounds (some 2) 0 2).1) ≤ 2) :=
  ⟨⟨by decide, by decide⟩,
    get_row_bounds_keeps_selection_visible threeRowTable 2 0 2 (by decide) (by decide)
      (by decide) (by decide)⟩

/-- C2 (amended): for a pre-clamped offset, the initial window of
`get_row_bounds` has `start = offset`, and its `end` is the first index at or
after `offset` at which the accumulated `height_with_margin` of the rows
taken so far plus the next row's bare `height` (margins excluded) would
exceed `max_height` — or `row_count` when no such index exists.  The original
claim's rule (accumulate `height_with_margin` itself) is refuted by
`initial_window_counterexample`. -/
theorem initial_window_characterization (hws : List (Nat × Nat)) (off maxH : Nat)
    (hoff : off ≤ hws.length) :
    (initialWindow hws off maxH).1 = off ∧
    off ≤ (initialWindow hws off maxH).2 ∧
    (initialWindow hws off maxH).2 ≤ hws.length ∧
    (∀ i, off ≤ i → i < (initialWindow hws off maxH).2 →
      wsum hws off (i - off) + htAt hws i ≤ maxH) ∧
    ((initialWindow hws off maxH).2 < hws.length →
      maxH < wsum hws off ((initialWindow hws off maxH).2 - off) +
        htAt hws (initialWindow hws off maxH).2) := by
  obtain ⟨i1, i2, i3, i4, i5⟩ := initLoop_spec hws maxH (hws.drop off) off 0 rfl
  have hiw : (initialWindow hws off maxH).2 = (initLoop maxH (hws.drop off) off 0).1 := rfl
  refine ⟨rfl, ?_, ?_, ?_, ?_⟩
  · rw [hiw]
    exact i1
  · rw [hiw]
    exact i2 hoff
  · intro i h1 h2
    rw [hiw] at h2
    have := i4 i h1 h2
    omega
  · intro h1
    rw [hiw] at h1 ⊢
    have := i5 h1
    omega

/-- C2 counterexample: one row of height `1` with `height_with_margin = 7`
and `max_height = 3`.  The code's initial window ends at `1` (the check adds
only the row's height), while the claim's accumulate-`height_with_margin`
rule ends at `0`; the taken window's `height_with_margin` sum is `7 > 3`. -/
theorem initial_window_counterexample :
    (initialWindow [(1, 7)] 0 3).2 = 1 ∧
    specInitialEnd [(1, 7)] 0 3 = 0 ∧
    wsum [(1, 7)] 0 ((initialWindow [(1, 7)] 0 3).2 - 0) = 7 := by
  decide

/-- Witness for the amended C2 theorem at rows `[(1, 1), (2, 2)]` with
`max_height = 3` and offset `0`. -/
theorem initial_window_characterization_witness :
    (0 ≤ [((1 : Nat), (1 : Nat)), (2, 2)].length) ∧
    (initialWindow [(1, 1), (2, 2)] 0 3).1 = 0 ∧
    (initialWindow [(1, 1), (2, 2)] 0 3).2 ≤ [((1 : Nat), (1 : Nat)), (2, 2)].length :=
  ⟨by decide, (initial_window_characterization [(1, 1), (2, 2)] 0 3 (by decide)).1,
    (initial_window_characterization [(1, 1), (2, 2)] 0 3 (by decide)).2.2.1⟩

/-- C9: for a non-empty row list the offset taken from the state is clamped
into `[0, row_count - 1]` before it is used — `get_row_bounds` computes the
same window for the raw and the clamped offset, and the clamped offset is a
valid row index. -/
theorem get_row_bounds_clamps_offset {σ κ β : Type} (t : Table σ κ β)
    (sel : Option Nat) (off maxH : Nat) (hne : t.rows ≠ []) :
    t.get_row_bounds sel off maxH =
      t.get_row_bounds sel (min off (t.rows.length - 1)) maxH ∧
    min off (t.rows.length - 1) < t.rows.length := by
  have hlen : t.hws.length = t.rows.length := t.hws_length
  have hpos : 0 < t.rows.length := List.length_pos.mpr hne
  constructor
  · unfold Table.get_row_bounds getRowBounds
    have key : min (min off (t.rows.length - 1)) (t.hws.length - 1) =
        min off (t.hws.length - 1) := by
      rw [hlen]
      omega
    rw [key]
  · omega

/-- Witness for C9 at the three-row table with raw offset `7`. -/
theorem get_row_bounds_clamps_offset_witness :
    threeRowTable.rows ≠ [] ∧
    (threeRowTable.get_row_bounds none 7 2 =
        threeRowTable.get_row_bounds none (min 7 (threeRowTable.rows.length - 1)) 2 ∧
      min 7 (threeRowTable.rows.length - 1) < threeRowTable.rows.length) :=
  ⟨by decide, get_row_bounds_clamps_offset threeRowTable none 7 2 (by decide)⟩


/-- C3: when no explicit column constraints are set, the planner derives
`column_count` as the maximum cell count across rows, header and footer and
assigns every derived column the width `(available_width − spacing ·
(column_count − 1)) / column_count` by integer division; in the concrete
scenario — spacing `0`, rows of `2` and `3` cells, width `30` —
`get_columns_widths` returns `(0,10), (10,10), (20,10)`. -/
theorem derived_columns_equal_widths :
    (∀ {σ κ β : Type} (t : Table σ κ β) (maxW : Nat), t.widths = [] →
      t.effective_widths maxW = List.replicate t.column_count
        (Constraint.Length ((maxW - t.column_spacing * (t.column_count - 1)) /
          max t.column_count 1))) ∧
    derivedWidthsTable.get_columns_widths specSplit 30 0 =
      [(0, 10), (10, 10), (20, 10)] := by
  constructor
  · intro σ κ β t maxW hw
    simp [Table.effective_widths, hw]
  · decide

/-- Witness for the first part of the C3 theorem at the scenario table. -/
theorem derived_columns_equal_widths_witness :
    derivedWidthsTable.widths = [] ∧
    derivedWidthsTable.effective_widths 30 =
      List.replicate derivedWidthsTable.column_count
        (Constraint.Length ((30 - derivedWidthsTable.column_spacing *
          (derivedWidthsTable.column_count - 1)) /
            max derivedWidthsTable.column_count 1)) :=
  ⟨rfl, derived_columns_equal_widths.1 derivedWidthsTable 30 rfl⟩

/-- C4: percentage constraints are validated when the table is configured —
`Table::new` and `Table::widths` succeed exactly when every `Percentage`
value is at most `100` (the source asserts and panics otherwise), so no
percentage check is deferred to the render path. -/
theorem percentages_checked_at_construction {σ κ β : Type} (s : σ)
    (rows : List (Row σ κ)) (t : Table σ κ β) (ws : List Constraint) :
    ((Table.new (β := β) s rows ws).isSome ↔
      ∀ p, Constraint.Percentage p ∈ ws → p ≤ 100) ∧
    ((t.setWidths ws).isSome ↔ ∀ p, Constraint.Percentage p ∈ ws → p ≤ 100) := by
  have h1 : (Table.new (β := β) s rows ws).isSome =
      ensure_percentages_less_than_100 ws := by
    unfold Table.new
    by_cases h : ensure_percentages_less_than_100 ws <;> simp [h]
  have h2 : (t.setWidths ws).isSome = ensure_percentages_less_than_100 ws := by
    unfold Table.setWidths
    by_cases h : ensure_percentages_less_than_100 ws <;> simp [h]
  constructor
  · rw [h1]
    exact ensure_iff ws
  · rw [h2]
    exact ensure_iff ws

/-- Witness for C4: a `Percentage 40` list is accepted by `Table::new`, and a
`Percentage 110` list is rejected. -/
theorem percentages_checked_at_construction_witness :
    (∀ p, Constraint.Percentage p ∈ [Constraint.Percentage 40] → p ≤ 100) ∧
    (Table.new (β := Unit) () ([] : List (Row Unit Unit))
      [Constraint.Percentage 40]).isSome = true ∧
    Table.new (β := Unit) () ([] : List (Row Unit Unit))
      [Constraint.Percentage 110] = none :=
  ⟨by
    intro p hp
    simp at hp
    omega,
  (percentages_checked_at_construction () [] tallRowTable [Constraint.Percentage 40]).1.mpr
    (by
      intro p hp
      simp at hp
      omega),
  by decide⟩


/-- C7: the planner builds `[Length(selection_width)]` followed by the content
constraints interleaved with `Length(column_spacing)` spacers, splits the
extent `[0, available_width)`, and keeps exactly the segments at odd
positions as `(x, width)` pairs in column order — the gutter segment (index
`0`) and every spacer segment (the other even indices) are discarded; when
the splitter yields one segment per constraint, the result has exactly one
pair per content column. -/
theorem columns_discard_gutter_and_spacers {σ κ β : Type} (t : Table σ κ β)
    (split : SegmentSize → Rect → List Constraint → List Rect) (maxW selW : Nat) :
    (∀ i, (t.get_columns_widths split maxW selW)[i]? =
      ((split t.segment_size { x := 0, y := 0, width := maxW, height := 1 }
          (t.column_constraints maxW selW)).map fun c => (c.x, c.width))[2 * i + 1]?) ∧
    ((split t.segment_size { x := 0, y := 0, width := maxW, height := 1 }
        (t.column_constraints maxW selW)).length =
        (t.column_constraints maxW selW).length →
      (t.get_columns_widths split maxW selW).length =
        (t.effective_widths maxW).length) := by
  constructor
  · intro i
    simp only [Table.get_columns_widths]
    rw [everyOther_getElem?, List.getElem?_drop]
    have h1 : 1 + 2 * i = 2 * i + 1 := by omega
    rw [h1]
  · intro hlen
    simp only [Table.get_columns_widths]
    rw [everyOther_length, List.length_drop, List.length_map, hlen]
    simp only [Table.column_constraints, List.length_cons]
    rw [length_intersperse]
    omega

/-- Witness for the C7 theorem's pointwise and length conclusions at the
scenario table with the stub splitter. -/
theorem columns_discard_gutter_and_spacers_witness :
    ((constSplit derivedWidthsTable.segment_size { x := 0, y := 0, width := 30, height := 1 }
        (derivedWidthsTable.column_constraints 30 0)).length =
      (derivedWidthsTable.column_constraints 30 0).length) ∧
    (derivedWidthsTable.get_columns_widths constSplit 30 0).length =
      (derivedWidthsTable.effective_widths 30).length :=
  ⟨by decide,
    (columns_discard_gutter_and_spacers derivedWidthsTable constSplit 30 0).2 (by decide)⟩

/-- The window returned by `get_row_bounds` always satisfies `start ≤ end`,
for arbitrary rows, selection, offset and height — so the source's
`end_index - start_index` never underflows. -/
lemma getRowBounds_start_le_end (hws : List (Nat × Nat)) (sel : Option Nat)
    (off maxH : Nat) :
    (getRowBounds hws sel off maxH).1 ≤ (getRowBounds hws sel off maxH).2 := by
  obtain ⟨i1, i2, i3, i4, i5⟩ := initLoop_spec hws maxH
    (hws.drop (min off (hws.length - 1))) (min off (hws.length - 1)) 0 rfl
  rcases hI : initLoop maxH (hws.drop (min off (hws.length - 1)))
      (min off (hws.length - 1)) 0 with ⟨e0, h0v⟩
  simp only [hI] at i1 i3
  have hsum0 : h0v =
      wsum hws (min off (hws.length - 1)) (e0 - min off (hws.length - 1)) := by
    omega
  obtain ⟨g1, g2, g3, g4, g5⟩ := growSteps_spec hws maxH
    (min (sel.getD 0) (hws.length - 1) + 1 - e0) (min off (hws.length - 1)) e0 h0v
    i1 hsum0
  rcases hG : growSteps hws maxH (min (sel.getD 0) (hws.length - 1) + 1 - e0)
      (min off (hws.length - 1)) e0 h0v with ⟨s1, e1, h1v⟩
  simp only [hG] at g1 g2 g3 g4
  have g4' : h1v = wsum hws s1 (e1 - s1) := by
    have h1 : e0 + (min (sel.getD 0) (hws.length - 1) + 1 - e0) = e1 := by omega
    rw [← h1]
    exact g4
  obtain ⟨p1c, p2c, p3c, p4c, p5c⟩ := pullSteps_spec hws maxH
    (s1 - min (sel.getD 0) (hws.length - 1)) s1 e1 h1v (by omega) (by omega) g4'
  rcases hP : pullSteps hws maxH (s1 - min (sel.getD 0) (hws.length - 1)) s1 e1 h1v
    with ⟨s2, e2, h2v⟩
  simp only [hP] at p1c p2c
  have hmain : getRowBounds hws sel off maxH = (s2, e2) := by
    simp only [getRowBounds, initialWindowH, growWindow, pullBack]
    rw [hI]
    simp only
    rw [hG]
    simp only
    rw [hP]
  rw [hmain]
  exact p2c

/-- C5: rendering is safe on the degenerate inputs the claim lists: the
computed window always has `start ≤ end` (so `take (end - start)` cannot
underflow), a zero-sized target area returns right after the base style paint
with the state untouched, an empty row list renders no row operations, and a
row's cell operations are exactly one per `(column, cell)` pair — extra cells
are dropped and missing cells leave their columns untouched. -/
theorem render_safe_on_degenerate_inputs {σ κ β : Type} :
    (∀ (hws : List (Nat × Nat)) (sel : Option Nat) (off maxH : Nat),
      (getRowBounds hws sel off maxH).1 ≤ (getRowBounds hws sel off maxH).2) ∧
    (∀ (t : Table σ κ β) (inner : β → Rect → Rect)
        (split : SegmentSize → Rect → List Constraint → List Rect)
        (uw : String → Nat) (area : Rect) (st : TableState),
      t.block = none → area.isEmpty = true →
      t.statefulRender inner split uw area st =
        ([DrawOp.setStyle area t.style], st)) ∧
    (∀ (t : Table σ κ β) (area : Rect) (st : TableState) (sw : Nat) (sym : String)
        (cw : List (Nat × Nat)),
      t.rows = [] → t.render_rows area st sw sym cw = ([], st)) ∧
    (∀ (area : Rect) (row : Row σ κ) (y : Nat) (cw : List (Nat × Nat)),
      (cellOpsOf (β := β) area row y cw).length = min cw.length row.cells.length) := by
  refine ⟨?_, ?_, ?_, ?_⟩
  · intro hws sel off maxH
    exact getRowBounds_start_le_end hws sel off maxH
  · intro t inner split uw area st hblock hempty
    simp [Table.statefulRender, Table.table_area, hblock, hempty]
  · intro t area st sw sym cw hrows
    simp [Table.render_rows, hrows]
  · intro area row y cw
    simp [cellOpsOf]

/-- Witness for C5's zero-area conclusion at the three-row table. -/
theorem render_safe_on_degenerate_inputs_witness :
    threeRowTable.block = none ∧ (Rect.mk 0 0 0 0).isEmpty = true ∧
    threeRowTable.statefulRender innerU specSplit uwZero { x := 0, y := 0, width := 0, height := 0 }
        TableState.default =
      ([DrawOp.setStyle { x := 0, y := 0, width := 0, height := 0 } threeRowTable.style],
        TableState.default) :=
  ⟨rfl, rfl,
    (render_safe_on_degenerate_inputs (σ := Unit) (κ := Unit) (β := Unit)).2.1
      threeRowTable innerU specSplit uwZero { x := 0, y := 0, width := 0, height := 0 }
      TableState.default rfl rfl⟩

/-- C6 (amended): the stateful render never changes `selected`; whenever the
table area after the block inset is non-empty and the row list is non-empty,
it mutates exactly the `offset` field, persisting the start of the window
computed for the rows band.  With an empty area the state is returned
untouched — see `stateful_render_offset_counterexample`. -/
theorem stateful_render_mutates_only_offset {σ κ β : Type} (t : Table σ κ β)
    (inner : β → Rect → Rect)
    (split : SegmentSize → Rect → List Constraint → List Rect)
    (uw : String → Nat) (area : Rect) (st : TableState) :
    (t.statefulRender inner split uw area st).2.selected = st.selected ∧
    ((t.table_area inner area).isEmpty = false → t.rows ≠ [] →
      (t.statefulRender inner split uw area st).2 =
        { st with offset := (t.get_row_bounds st.selected st.offset
            (t.layout (t.table_area inner area)).2.1.height).1 }) := by
  constructor
  · by_cases hta : (t.table_area inner area).isEmpty
    · simp [Table.statefulRender, hta]
    · by_cases hrows : t.rows.isEmpty
      · simp [Table.statefulRender, hta, Table.render_rows, hrows]
      · simp [Table.statefulRender, hta, Table.render_rows, hrows]
  · intro hta hrows
    have hre : t.rows.isEmpty = false := by
      cases hl : t.rows with
      | nil => exact absurd hl hrows
      | cons a l => rfl
    simp [Table.statefulRender, hta, Table.render_rows, hre]

/-- C6 counterexample: with a zero-sized area (and three non-empty rows) the
stateful render returns early, leaving the persisted offset `5` although the
computed window start for that state is `0` — so the render does not always
assign the computed start. -/
theorem stateful_render_offset_counterexample :
    (threeRowTable.statefulRender innerU specSplit uwZero
        { x := 0, y := 0, width := 0, height := 0 }
        { offset := 5, selected := none }).2.offset = 5 ∧
    (threeRowTable.get_row_bounds none 5
        ((threeRowTable.layout (threeRowTable.table_area innerU
          { x := 0, y := 0, width := 0, height := 0 })).2.1.height)).1 = 0 ∧
    (5 : Nat) ≠ 0 := by
  decide

/-- Witness for the amended C6 theorem at a `10 × 5` area. -/
theorem stateful_render_mutates_only_offset_witness :
    (threeRowTable.table_area innerU { x := 0, y := 0, width := 10, height := 5 }).isEmpty
        = false ∧
    threeRowTable.rows ≠ [] ∧
    (threeRowTable.statefulRender innerU specSplit uwZero
        { x := 0, y := 0, width := 10, height := 5 }
        { offset := 1, selected := none }).2 =
      { offset := (threeRowTable.get_row_bounds none 1
          ((threeRowTable.layout (threeRowTable.table_area innerU
            { x := 0, y := 0, width := 10, height := 5 })).2.1.height)).1,
        selected := none } :=
  ⟨by decide, by decide,
    (stateful_render_mutates_only_offset threeRowTable innerU specSplit uwZero
        { x := 0, y := 0, width := 10, height := 5 }
        { offset := 1, selected := none }).2 (by decide) (by decide)⟩

/-- C8: for a visible row, the highlight symbol is painted at the row area's
top-left — the row's first line — exactly when the row is selected and the
gutter width is positive; the selected row's operations end with the
highlight-style repaint of the whole row area, issued after the cell renders
so it overrides row and cell styling; an unselected row gets exactly its
style paint and its cell renders — no symbol and no repaint. -/
theorem highlight_only_on_selected_row {σ κ β : Type} (hl : σ) (stSel : Option Nat)
    (area : Rect) (sw : Nat) (sym : String) (cw : List (Nat × Nat)) (i : Nat)
    (row : Row σ κ) (y : Nat) :
    (stSel = some i → 0 < sw →
      rowOps (β := β) hl stSel area sw sym cw i row y =
        DrawOp.setStyle (rowAreaOf area row y) row.style ::
          DrawOp.setStringn (rowAreaOf area row y).x (rowAreaOf area row y).y sym
            area.width row.style ::
          (cellOpsOf area row y cw ++ [DrawOp.setStyle (rowAreaOf area row y) hl])) ∧
    (stSel = some i →
      (rowOps (β := β) hl stSel area sw sym cw i row y).getLast? =
        some (DrawOp.setStyle (rowAreaOf area row y) hl)) ∧
    (stSel = some i → sw = 0 →
      rowOps (β := β) hl stSel area sw sym cw i row y =
        DrawOp.setStyle (rowAreaOf area row y) row.style ::
          (cellOpsOf area row y cw ++ [DrawOp.setStyle (rowAreaOf area row y) hl])) ∧
    (stSel ≠ some i →
      rowOps (β := β) hl stSel area sw sym cw i row y =
        DrawOp.setStyle (rowAreaOf area row y) row.style :: cellOpsOf area row y cw) := by
  refine ⟨?_, ?_, ?_, ?_⟩
  · intro hsel hsw
    simp [rowOps, hsel, hsw]
  · intro hsel
    have hp : rowOps (β := β) hl stSel area sw sym cw i row y =
        (DrawOp.setStyle (rowAreaOf area row y) row.style ::
          ((if 0 < sw ∧ stSel = some i then
              [DrawOp.setStringn (rowAreaOf area row y).x (rowAreaOf area row y).y sym
                area.width row.style]
            else []) ++ cellOpsOf area row y cw)) ++
          [DrawOp.setStyle (rowAreaOf area row y) hl] := by
      simp [rowOps, hsel]
    rw [hp, List.getLast?_concat]
  · intro hsel hsw
    simp [rowOps, hsel, hsw]
  · intro hsel
    simp [rowOps, hsel]


/-- Witness for C8 at a selected one-cell row with gutter width `2`. -/
theorem highlight_only_on_selected_row_witness :
    ((some 0 : Option Nat) = some 0 ∧ (0 : Nat) < 2) ∧
    rowOps (β := Unit) (7 : Nat) (some 0) { x := 0, y := 0, width := 10, height := 1 }
        2 ">>" [(0, 5)] 0 wRow 0 =
      DrawOp.setStyle (rowAreaOf { x := 0, y := 0, width := 10, height := 1 } wRow 0)
          wRow.style ::
        DrawOp.setStringn (rowAreaOf { x := 0, y := 0, width := 10, height := 1 } wRow 0).x
          (rowAreaOf { x := 0, y := 0, width := 10, height := 1 } wRow 0).y ">>" 10
          wRow.style ::
        (cellOpsOf { x := 0, y := 0, width := 10, height := 1 } wRow 0 [(0, 5)] ++
          [DrawOp.setStyle (rowAreaOf { x := 0, y := 0, width := 10, height := 1 } wRow 0) 7]) :=
  ⟨⟨rfl, by decide⟩,
    (highlight_only_on_selected_row 7 (some 0) { x := 0, y := 0, width := 10, height := 1 }
        2 ">>" [(0, 5)] 0 wRow 0).1 rfl (by decide)⟩

/-- C10: the stateless `Widget::render` issues exactly the draw operations of
`StatefulWidget::render` run with a freshly defaulted `TableState` (offset
`0`, no selection), discarding the final state. -/
theorem widget_render_is_stateful_with_default {σ κ β : Type} (t : Table σ κ β)
    (inner : β → Rect → Rect)
    (split : SegmentSize → Rect → List Constraint → List Rect)
    (uw : String → Nat) (area : Rect) :
    t.widgetRender inner split uw area =
      (t.statefulRender inner split uw area TableState.default).1 ∧
    TableState.default.offset = 0 ∧ TableState.default.selected = none :=
  ⟨rfl, rfl, rfl⟩
